import Mathlib

/-!
Verification development for the filmy hybrid recommendation engine.

This file shallowly embeds the core of `backend/app` — the ALS re-ranker
(`services/recommendation_service.py`), the two interaction-matrix builders
(`ml/utils/implicit_utils.py`, `pipelines/training/training_helper.py`),
the two evaluators (`ml/pipelines/implicit_train.py`,
`pipelines/training/training_helper.py`), the promotion decision
(`pipelines/training/train_implicit.py`), the registry maintenance helpers
(`pipelines/utils/model_registery.py`), the model cache loader and the
daily refresh scheduler (`model_state.py`, `utils/model_loader.py`) — and
proves or refutes the specified properties of each.

Conventions of the embedding:
- Python floats are modelled as rationals (the claims concern ordering,
  counting and control flow, not rounding).
- Python dicts keyed by ids are modelled as association lists with
  first-match lookup.
- A scipy `coo_matrix` is modelled by its three stored parallel lists
  (row indices, column indices, values) plus its shape, exactly the data
  the constructor receives; `nnz` of a coo matrix is the stored-entry
  count.
- Python exceptions are modelled by `Option`/`Except`/error sums as noted
  at each definition.
- `numpy.argsort` (default, unstable) is modelled as a deterministic
  stable sort; no theorem below depends on the order of tied scores.
-/

/-- First-match lookup in an association list, modelling Python dict
access `d[k]` / `k in d`. -/
def alookup {α β : Type} [BEq α] (l : List (α × β)) (k : α) : Option β :=
  match l with
  | [] => none
  | (a, b) :: t => if a == k then some b else alookup t k

/-- Dot product of two rational vectors, modelling `numpy.dot` on
one-dimensional arrays (dimensions are kept consistent by hypotheses). -/
def dotQ (a b : List ℚ) : ℚ :=
  ((a.zip b).map (fun p => p.1 * p.2)).sum

/-- Model of `numpy.argsort(-scores)`: indices of `scores` ordered by
strictly descending score.  numpy's default sort is unstable on ties; we model the
stable choice (ties keep ascending index order). -/
def argsortDesc (scores : List ℚ) : List ℕ :=
  List.insertionSort (fun i j => scores.getD j 0 < scores.getD i 0)
    (List.range scores.length)

/-- The `dataset_map` dict produced by training: external user id → dense
user index and external movie id → dense item index. -/
structure DatasetMap where
  user_map : List (ℤ × ℕ)
  item_map : List (ℤ × ℕ)
deriving Repr, DecidableEq

/-- The unpickled ALS model wrapper artifact: the registry stores, per
version, the dataset map and the two factor matrices (rows are factor
vectors). -/
structure Artifacts where
  dataset_map : DatasetMap
  item_factors : List (List ℚ)
  user_factors : List (List ℚ)
deriving Repr, DecidableEq

/-- The process-wide `MODEL_CACHE` dict of `model_state.py`: every slot
starts as `None` (here `none`). -/
structure Cache where
  implicit_model : Option Artifacts
  dataset_map : Option DatasetMap
  item_factors : Option (List (List ℚ))
  user_factors : Option (List (List ℚ))
  model_version : Option String
deriving Repr, DecidableEq

/-- Indexing a list of factor rows by a list of indices
(`factors[indices]` numpy fancy indexing): `none` models the IndexError
raised when some index is out of range. -/
def mapOpt {α : Type} (l : List ℕ) (f : ℕ → Option α) : Option (List α) :=
  match l with
  | [] => some []
  | i :: t =>
    match f i, mapOpt t f with
    | some a, some r => some (a :: r)
    | _, _ => none

/-- The loop of `_rerank_with_implicit` building `indices` and `mapped`:
`indices` collects the item-map index of each mapped candidate, while
`mapped` receives every candidate (the `else` branch also appends `cid`). -/
def buildIndicesMapped (item_map : List (ℤ × ℕ)) (candidate_ids : List ℤ) :
    List ℕ × List ℤ :=
  candidate_ids.foldl
    (fun acc cid =>
      match alookup item_map cid with
      | some idx => (acc.1 ++ [idx], acc.2 ++ [cid])
      | none => (acc.1, acc.2 ++ [cid]))
    ([], [])

/-- Embedding of `RecommendationService._rerank_with_implicit(user_id, candidate_ids)`
(`services/recommendation_service.py`, lines 31–69).  `none` models a
raised exception (out-of-range factor indexing / subscripting `None`);
`some l` models returning the list `l`.  The cache slots play the roles of
`self.implicit_model`, `self.dataset_map`, `self.item_factors`,
`self.user_factors`. -/
def rerank_with_implicit (c : Cache) (user_id : ℤ) (candidate_ids : List ℤ) :
    Option (List ℤ) :=
  -- `if not self.implicit_model or not self.dataset_map: return candidate_ids`
  match c.implicit_model, c.dataset_map with
  | none, _ => some candidate_ids
  | _, none => some candidate_ids
  | some m, some dm =>
    -- `if user_id not in user_map: return candidate_ids`
    match alookup dm.user_map user_id with
    | none => some candidate_ids
    | some uidx =>
      -- `user_vec = self.user_factors[uidx] if self.user_factors is not None
      --             else self.implicit_model.user_factors[uidx]`
      let user_vec? :=
        match c.user_factors with
        | some uf => uf.get? uidx
        | none => m.user_factors.get? uidx
      match user_vec? with
      | none => none
      | some user_vec =>
        let im := buildIndicesMapped dm.item_map candidate_ids
        let indices := im.1
        let mapped := im.2
        -- `if not indices: return candidate_ids`
        if indices.isEmpty then some candidate_ids
        else
          -- `item_vecs = self.item_factors[indices]` (fancy indexing)
          match c.item_factors with
          | none => none
          | some itf =>
            match mapOpt indices (fun i => itf.get? i) with
            | none => none
            | some item_vecs =>
              -- `scores = item_vecs.dot(user_vec)`; `order = np.argsort(-scores)`
              let scores := item_vecs.map (fun v => dotQ v user_vec)
              let order := argsortDesc scores
              -- `ordered = [mapped[i] for i in order]`
              let ordered := order.filterMap (fun i => mapped.get? i)
              -- `unmapped = [cid for cid in candidate_ids if cid not in ordered]`
              let unmapped := candidate_ids.filter (fun cid => !(ordered.contains cid))
              some (ordered ++ unmapped)

/-! ## Feedback rows and the two interaction-matrix builders -/

/-- A non-`None` value found in a feedback row's `rating` column.
`float()` succeeds exactly on `num`; `unparseable` models a truthy value
(such as a non-numeric string) on which `float()` raises. -/
inductive RatingVal
  | num (q : ℚ)
  | unparseable
deriving Repr, DecidableEq

/-- A feedback row as both builders consume it: user id, movie id,
nullable rating, nullable status tag. -/
structure Feedback where
  user_id : ℤ
  movie_id : ℤ
  rating : Option RatingVal
  status : Option String
deriving Repr, DecidableEq

/-- Python `str.lower()` on the ASCII status tags this system uses,
written over the character list so it evaluates in the kernel. -/
def lowerAscii (s : String) : String :=
  ⟨s.data.map Char.toLower⟩

/-- The condition `status and str(status).lower() == "watched"` of
`ml/utils/implicit_utils.py` (an empty string is falsy). -/
def statusWatched (s : Option String) : Bool :=
  match s with
  | none => false
  | some t => !(t == "") && lowerAscii t == "watched"

/-- A scipy `coo_matrix` as constructed by both builders: the three
parallel stored lists handed to the constructor, plus the shape.  The
stored-entry count (`nnz` of a freshly built coo matrix) is
`vals.length`. -/
structure Coo where
  rows : List ℕ
  cols : List ℕ
  vals : List ℚ
  shape : ℕ × ℕ
deriving Repr, DecidableEq

/-- The stored entries of a coo matrix as (row, column, value) triples. -/
def Coo.entries (m : Coo) : List (ℕ × ℕ × ℚ) :=
  m.rows.zip (m.cols.zip m.vals)

/-- The mathematical entry of a coo matrix at (i, j): the sum of all
stored values there (scipy sums duplicates on conversion). -/
def cooAt (m : Coo) (i j : ℕ) : ℚ :=
  ((m.entries.filter (fun t => t.1 == i && t.2.1 == j)).map
    (fun t => t.2.2)).sum

/-- The rating-resolution logic of
`ml/utils/implicit_utils.build_interaction_matrix` for one row: `none`
models `continue` (row skipped), `some r` the value `float()` returns.
A `None` rating with a "watched" status defaults to 1.0; a `None` rating
otherwise is skipped; a present rating is skipped when `float()` raises. -/
def iuRowRating (f : Feedback) : Option ℚ :=
  match f.rating with
  | none => if statusWatched f.status then some 1 else none
  | some (RatingVal.num q) => some q
  | some RatingVal.unparseable => none

/-- The loop body of `ml/utils/implicit_utils.build_interaction_matrix`:
skip rows whose user or movie is unmapped, resolve the rating, append
(item-index, user-index, 1 + alpha*rating) to the three lists. -/
def iuStep (user_map item_map : List (ℤ × ℕ)) (alpha : ℚ)
    (acc : List ℕ × List ℕ × List ℚ) (f : Feedback) :
    List ℕ × List ℕ × List ℚ :=
  match alookup user_map f.user_id, alookup item_map f.movie_id with
  | some uidx, some midx =>
    match iuRowRating f with
    | none => acc
    | some r => (acc.1 ++ [midx], acc.2.1 ++ [uidx], acc.2.2 ++ [1 + alpha * r])
  | _, _ => acc

/-- Embedding of `ml/utils/implicit_utils.build_interaction_matrix(feedbacks, user_map,
item_map, alpha)` (lines 18–67): item × user oriented coo matrix of
confidences `1 + alpha*rating`. -/
def build_interaction_matrix_iu (feedbacks : List Feedback)
    (user_map item_map : List (ℤ × ℕ)) (alpha : ℚ) : Coo :=
  let s := feedbacks.foldl (iuStep user_map item_map alpha) ([], [], [])
  ⟨s.1, s.2.1, s.2.2, (item_map.length, user_map.length)⟩

/-- The rating logic of
`pipelines/training/training_helper.build_interaction_matrix`:
`rating = float(fb.rating) if fb.rating else 1.0`.  A falsy rating
(`None` or 0.0) defaults to 1.0 regardless of status; `none` models the
ValueError `float()` raises on a truthy unparseable rating (this variant
has no try/except). -/
def thRowRating (f : Feedback) : Option ℚ :=
  match f.rating with
  | none => some 1
  | some (RatingVal.num q) => if q == 0 then some 1 else some q
  | some RatingVal.unparseable => none

/-- The loop of
`pipelines/training/training_helper.build_interaction_matrix`, with
`none` propagating the uncaught `float()` ValueError. -/
def thFold (user_map item_map : List (ℤ × ℕ)) (alpha : ℚ)
    (acc : List ℕ × List ℕ × List ℚ) :
    List Feedback → Option (List ℕ × List ℕ × List ℚ)
  | [] => some acc
  | f :: t =>
    match alookup user_map f.user_id, alookup item_map f.movie_id with
    | some uidx, some midx =>
      match thRowRating f with
      | none => none
      | some r =>
        thFold user_map item_map alpha
          (acc.1 ++ [uidx], acc.2.1 ++ [midx], acc.2.2 ++ [1 + alpha * r]) t
    | _, _ => thFold user_map item_map alpha acc t

/-- Embedding of `pipelines/training/training_helper.build_interaction_matrix`
(lines 43–58): user × item oriented coo matrix; every mapped row is kept
(there is no rating/status filter); `none` models an uncaught
`float()` ValueError. -/
def build_interaction_matrix_th (feedbacks : List Feedback)
    (user_map item_map : List (ℤ × ℕ)) (alpha : ℚ) : Option Coo :=
  (thFold user_map item_map alpha ([], [], []) feedbacks).map
    (fun (s : List ℕ × List ℕ × List ℚ) =>
      (⟨s.1, s.2.1, s.2.2, (user_map.length, item_map.length)⟩ : Coo))

/-- The row filter exactly as claimed of the matrix builder: a row is
kept iff its rating is present and numerically parseable, or its rating
is absent but its status is the "watched" tag.  Stated for comparison
with the code's behavior. -/
def claimRowPasses (f : Feedback) : Bool :=
  (match f.rating with
   | some (RatingVal.num _) => true
   | _ => false) ||
  (f.rating.isNone && statusWatched f.status)

/-- The effective rating of a row passing `claimRowPasses`: the parsed
value, or the 1.0 default for a rating-less "watched" row. -/
def claimRowRating (f : Feedback) : ℚ :=
  match f.rating with
  | some (RatingVal.num q) => q
  | _ => 1

/-! ## `ml/pipelines/implicit_train.py`: map construction and training
entry -/

/-- Python `sorted({...})`: the ascending list of distinct values. -/
def dedupSortInt (l : List ℤ) : List ℤ :=
  List.insertionSort (fun a b => a ≤ b) l.dedup

/-- Model of `{x: i for i, x in enumerate(xs)}`: dense 0-based indices in list
order. -/
def enumMap (l : List ℤ) : List (ℤ × ℕ) :=
  l.enum.map (fun p => (p.2, p.1))

/-- Embedding of `ml/pipelines/implicit_train.build_maps_and_feedbacks` (lines 27–52):
raises RuntimeError when the feedback list is empty; otherwise builds the
user map from feedback users and the item map from feedback movies, both
by ascending id. -/
def build_maps_and_feedbacks (feedbacks : List Feedback) :
    Except String (DatasetMap × List Feedback) :=
  if feedbacks.isEmpty then
    Except.error "No feedback rows found in DB - cannot train model."
  else
    Except.ok
      (⟨enumMap (dedupSortInt (feedbacks.map (fun f => f.user_id))),
        enumMap (dedupSortInt (feedbacks.map (fun f => f.movie_id)))⟩,
        feedbacks)

/-- Default of `IMPLICIT_ALPHA` in `ml/pipelines/implicit_train.py`. -/
def IMPLICIT_ALPHA : ℚ := 10

/-- The data-preparation front of `ml/pipelines/implicit_train.train`:
load maps, then build the interaction matrix (the subsequent `model.fit`
is called unconditionally on whatever matrix results). -/
def trainPrep (feedbacks : List Feedback) : Except String (DatasetMap × Coo) :=
  (build_maps_and_feedbacks feedbacks).map
    (fun p => (p.1, build_interaction_matrix_iu p.2 p.1.user_map p.1.item_map IMPLICIT_ALPHA))

/-- Boolean success test for an `Except` value. -/
def exceptOk {ε α : Type} (e : Except ε α) : Bool :=
  match e with
  | Except.ok _ => true
  | Except.error _ => false

/-! ## The two evaluators -/

/-- Model of `numpy.argsort(-scores)` over scores that may have been masked to
`-np.inf` (`⊥`); same stable-tie modelling as `argsortDesc`. -/
def argsortDescWB (scores : List (WithBot ℚ)) : List ℕ :=
  List.insertionSort (fun i j => scores.getD j ⊥ < scores.getD i ⊥)
    (List.range scores.length)

/-- Model of `scores = model.item_factors.dot(uvec)` followed by
`scores[it] = -np.inf for it in train_items`: one score per item-factor
row, with the user's training items masked to `⊥`. -/
def maskedScores (itemFactors : List (List ℚ)) (uvec : List ℚ)
    (trainItems : List ℕ) : List (WithBot ℚ) :=
  ((itemFactors.map (fun v => dotQ v uvec)).enum).map
    (fun p => if trainItems.contains p.1 then (⊥ : WithBot ℚ) else (p.2 : WithBot ℚ))

/-- Default of `IMPLICIT_EVAL_SAMPLE_USERS` in `ml/pipelines/implicit_train.py`. -/
def SAMPLE_EVAL_USERS : ℕ := 2000

/-- The per-user positive item list of `ml/pipelines/implicit_train.evaluate`
(lines 64–70): nonzero item indices of the user's column of the
item × user matrix, in ascending order, restricted to items the trained
factors cover. -/
def userPosIT (m : Coo) (validItems : ℕ) (u : ℕ) : List ℕ :=
  ((List.range m.shape.1).filter (fun i => !(cooAt m i u == 0))).filter
    (fun i => i < validItems)

/-- The eligible-user list of `ml/pipelines/implicit_train.evaluate`
(line 73): users with at least 2 valid interactions, computed before any
sampling. -/
def eligibleUsersIT (m : Coo) (validItems : ℕ) : List ℕ :=
  (List.range m.shape.2).filter (fun u => 2 ≤ (userPosIT m validItems u).length)

/-- Embedding of `ml/pipelines/implicit_train.evaluate(model, interactions, dataset_map)`
(lines 55–121).  The function itself always returns Python `None`; its
observable outcome modelled here is the (precision@10, recall@10) pair it
logs to mlflow, with `none` for the early `return` that logs nothing
(taken when no user has ≥ 2 valid interactions).  `choice` is the
`np.random.choice` draw, used only when more than `SAMPLE_EVAL_USERS`
users are eligible; it returns members of its argument (recorded by the
filter).  Per eligible user the held-out item is `pos[-1]` — the `getD`
defaults are unreachable because eligible users have ≥ 2 positives and
user factor rows cover the matrix's users. -/
def evaluateIT (choice : List ℕ → List ℕ)
    (itemFactors userFactors : List (List ℚ)) (m : Coo) : Option (ℚ × ℚ) :=
  let validItems := itemFactors.length
  let userList := eligibleUsersIT m validItems
  if userList.isEmpty then none
  else
    let sampled :=
      if SAMPLE_EVAL_USERS < userList.length then
        (choice userList).filter (fun u => userList.contains u)
      else userList
    let prs := sampled.map (fun u =>
      let pos := userPosIT m validItems u
      let testItem := pos.getLastD 0
      let trainItems := pos.dropLast
      let uvec := userFactors.getD u []
      let topk := (argsortDescWB (maskedScores itemFactors uvec trainItems)).take 100
      (topk, testItem))
    let p10 := ((prs.map
      (fun pr => if (pr.1.take 10).contains pr.2 then (1 : ℚ) / 10 else 0)).sum)
      / (prs.length : ℚ)
    let r10 := ((prs.map
      (fun pr => if (pr.1.take 10).contains pr.2 then (1 : ℚ) else 0)).sum)
      / (prs.length : ℚ)
    some (p10, r10)

/-- The per-user item list of
`pipelines/training/training_helper.evaluate_model` (lines 91–92):
nonzero item indices of the user's row of the user × item matrix, in
ascending order, restricted to covered items. -/
def userItemsTH (m : Coo) (validItems : ℕ) (u : ℕ) : List ℕ :=
  ((List.range m.shape.2).filter (fun i => !(cooAt m u i == 0))).filter
    (fun i => i < validItems)

/-- Embedding of `pipelines/training/training_helper.evaluate_model(model, interactions,
dataset_map, sample_users)` (lines 77–121).  Key differences from
`evaluateIT`: the sample is drawn from ALL users before eligibility is
checked; a user needs ≥ 5 valid interactions to contribute; the held-out
set is a 20% random sample (`random.sample`, modelled by the `sample`
oracle returning `n` distinct members of its second argument, recorded by
the filter/dedup; `int(len*0.2)` is written as `len / 5`); it returns the
(precision@10, recall@10) pair, (0, 0) when no sampled user is
eligible. -/
def evaluate_model (choice : List ℕ → List ℕ)
    (sample : ℕ → List ℕ → List ℕ)
    (itemFactors userFactors : List (List ℚ)) (m : Coo)
    (sampleUsers : ℕ := 2000) : ℚ × ℚ :=
  let validItems := itemFactors.length
  let numUsers := m.shape.1
  let users :=
    if sampleUsers < numUsers then
      (choice (List.range numUsers)).filter (fun u => u < numUsers)
    else List.range numUsers
  let prs := users.filterMap (fun u =>
    let items := userItemsTH m validItems u
    if items.length < 5 then none
    else
      let nTest := max 1 (items.length / 5)
      let testItems := ((sample nTest items).filter (fun i => items.contains i)).dedup
      let trainItems := items.filter (fun i => !(testItems.contains i))
      let uvec := userFactors.getD u []
      let topk := (argsortDescWB (maskedScores itemFactors uvec trainItems)).take 100
      some (topk, testItems))
  if prs.isEmpty then (0, 0)
  else
    let p10 := ((prs.map
      (fun pr => (((pr.1.take 10).filter (fun i => pr.2.contains i)).length : ℚ) / 10)).sum)
      / (prs.length : ℚ)
    let r10 := ((prs.map
      (fun pr => (((pr.1.take 10).filter (fun i => pr.2.contains i)).length : ℚ)
        / (pr.2.length : ℚ))).sum)
      / (prs.length : ℚ)
    (p10, r10)

/-! ## Model registry, promotion decision, maintenance helpers -/

/-- A registered model version: MLflow version number, the run that
produced it, its `current_stage`, its tag dict (the training pipeline
tags the serving version with `stage=production`), and the stored
artifacts. -/
structure ModelVersion where
  version : ℕ
  runId : String
  stage : String
  tags : List (String × String)
  artifacts : Artifacts
deriving Repr, DecidableEq

/-- The model registry: the registered versions of
`filmy_implicit_model` plus the metric store
(run id → (precision_at_10, recall_at_10), absent metrics are `none`). -/
structure Registry where
  versions : List ModelVersion
  runMetrics : List (String × Option ℚ × Option ℚ)
deriving Repr, DecidableEq

/-- Model of `client.search_model_versions("name=... and tags.stage='production'")`
as used by `train_implicit.get_current_production_metrics` and
`utils/model_loader.load_latest_production_model`. -/
def prodTagged (reg : Registry) : List ModelVersion :=
  reg.versions.filter (fun v => alookup v.tags "stage" == some "production")

/-- Embedding of `pipelines/training/train_implicit.get_current_production_metrics`
(lines 44–59): `(None, None, None)` when no version is production-tagged,
otherwise the first tagged version and its run's two metrics (a
registered version's run exists in the metric store; missing metric keys
are `none`). -/
def get_current_production_metrics (reg : Registry) :
    Option ModelVersion × Option ℚ × Option ℚ :=
  match prodTagged reg with
  | [] => (none, none, none)
  | v :: _ =>
    let ms := (alookup reg.runMetrics v.runId).getD (none, none)
    (some v, ms.1, ms.2)

/-- Embedding of `pipelines/training/train_implicit.is_better(new_p10, new_r10,
old_p10, old_r10)` (lines 62–69): promote unconditionally when either
production metric is missing, otherwise require strictly better
precision AND at-least-equal recall. -/
def is_better (newP newR : ℚ) (oldP oldR : Option ℚ) : Bool :=
  match oldP, oldR with
  | some p, some r => decide (p < newP) && decide (r ≤ newR)
  | _, _ => true

/-- The promotion decision taken at the end of
`pipelines/training/train_implicit.train` (lines 163–189): compare the
fresh metrics against the current production metrics with `is_better`;
`true` means the new version receives the `stage=production` tag (and the
old one, if any, loses it). -/
def trainPromotes (reg : Registry) (newP newR : ℚ) : Bool :=
  let pm := get_current_production_metrics reg
  is_better newP newR pm.2.1 pm.2.2

/-- Model of `sorted(versions, key=lambda v: int(v.version), reverse=True)` of
`pipelines/utils/model_registery.py` (stable descending by version
number). -/
def sortVersionsDesc (vs : List ModelVersion) : List ModelVersion :=
  List.insertionSort (fun a b => b.version ≤ a.version) vs

/-- Model of `client.transition_model_version_stage(name, version, stage)`: set
`current_stage` of the matching version(s). -/
def transition_stage (vs : List ModelVersion) (ver : ℕ) (stage : String) :
    List ModelVersion :=
  vs.map (fun v => if v.version == ver then { v with stage := stage } else v)

/-- Embedding of `pipelines/utils/model_registery.archive_old_versions(model_name,
keep_last)` (lines 50–62): every version beyond the `keep_last` most
recent (by version number) is transitioned to stage "Archived" — with no
exemption of any kind. The result is the registry's version list after
the loop. -/
def archive_old_versions (vs : List ModelVersion) (keep_last : ℕ) :
    List ModelVersion :=
  ((sortVersionsDesc vs).drop keep_last).foldl
    (fun acc v => transition_stage acc v.version "Archived") vs

/-- Embedding of `pipelines/utils/model_registery.delete_model_versions(model_name,
keep_last)` (lines 64–74): every version beyond the `keep_last` most
recent (by version number) is deleted — again with no exemption. -/
def delete_model_versions (vs : List ModelVersion) (keep_last : ℕ) :
    List ModelVersion :=
  ((sortVersionsDesc vs).drop keep_last).foldl
    (fun acc v => acc.filter (fun w => !(w.version == v.version))) vs

/-! ## Model cache loader and refresh scheduler -/

/-- Python exceptions raised by the loader/scheduler paths.
`noProductionModelError` is modelled from the spec: the spec's error
taxonomy names a dedicated `NoProductionModelError`, but the repository
defines no such class — the constructor exists only so the claim about it
can be stated and compared with what the code actually raises. -/
inductive PyErr
  | valueError (msg : String)
  | attributeError (msg : String)
  | noProductionModelError
deriving Repr, DecidableEq

/-- Embedding of `utils/model_loader.load_latest_production_model()` (lines 9–31).
`.inl ()` models its no-production branch, which logs an error and
returns the 4-tuple `(None, None, None, None)`; `.inr (a, run_id)` models
its success branch, which returns the 5-tuple
`(wrapper, dataset_map, item_factors, user_factors, run_id)` — note the
two branches return tuples of different lengths. -/
def load_latest_production_model (reg : Registry) :
    Sum Unit (Artifacts × String) :=
  match prodTagged reg with
  | [] => Sum.inl ()
  | v :: _ => Sum.inr (v.artifacts, v.runId)

/-- Embedding of `model_state.load_model()` (lines 17–30): it unpacks the result of
`load_latest_production_model` into FIVE names.  In the no-production
case the callee returned only four values, so the unpacking assignment
raises `ValueError: not enough values to unpack (expected 5, got 4)`
before any cache slot is written; the pair returned here is (cache after
the call, raised exception if any). -/
def load_model (reg : Registry) (c : Cache) : Cache × Option PyErr :=
  match load_latest_production_model reg with
  | Sum.inl _ =>
    (c, some (PyErr.valueError "not enough values to unpack (expected 5, got 4)"))
  | Sum.inr (a, rid) =>
    (⟨some a, some a.dataset_map, some a.item_factors, some a.user_factors,
      some rid⟩, none)

/-- One post-sleep iteration of `model_state.model_watcher_thread`
(lines 45–64): `new_model, _, _, _ = load_latest_production_model()`
unpacks into FOUR names.  When a production model exists the callee
returns five values, so the unpacking raises `ValueError: too many values
to unpack (expected 4)`; when none exists it returns four `None`s, the
unpack succeeds with `new_model = None`, and the next line
`new_model._model_impl.metadata.run_id` raises `AttributeError`.  Either
way the tick dies before the version comparison on line 60, so
`load_model` is never called.  The triple returned is (cache after the
tick, number of `load_model` cache swaps performed, raised exception). -/
def model_watcher_tick (reg : Registry) (c : Cache) :
    Cache × ℕ × Option PyErr :=
  match load_latest_production_model reg with
  | Sum.inl _ =>
    (c, 0, some (PyErr.attributeError "NoneType object has no attribute _model_impl"))
  | Sum.inr _ =>
    (c, 0, some (PyErr.valueError "too many values to unpack (expected 4)"))

/-! ## Wall-clock model for `model_state.seconds_until_next_4am`

A timezone-aware Python datetime in Europe/Paris is modelled by its wall
clock reading: the civil day index `z` (days since 1970-01-01 of the wall
date) and the microsecond of the wall day `u`.  `datetime + timedelta`
is naive-field arithmetic (`z + 1`), `replace(hour=4, ...)` sets `u`;
comparison and subtraction of aware datetimes go through the UTC instant
`z*86400e6 + u - offset(z, u)*1e6`, where the offset is the IANA
Europe/Paris rule applied to the wall reading (ZoneInfo, fold=0).
-/

/-- Microseconds per day. -/
def usecPerDay : ℤ := 86400000000

/-- Microseconds for a 04:00:00.000000 wall time. -/
def usec4am : ℤ := 14400000000

/-- Civil date from a 1970-epoch day index (standard era-based Gregorian
algorithm); yields (year, month, day). -/
def civilFromDays (z : ℤ) : ℤ × ℤ × ℤ :=
  let z' := z + 719468
  let era := Int.fdiv z' 146097
  let doe := z' - era * 146097
  let yoe := Int.fdiv
    (doe - Int.fdiv doe 1460 + Int.fdiv doe 36524 - Int.fdiv doe 146096) 365
  let y := yoe + era * 400
  let doy := doe - (365 * yoe + Int.fdiv yoe 4 - Int.fdiv yoe 100)
  let mp := Int.fdiv (5 * doy + 2) 153
  let d := doy - Int.fdiv (153 * mp + 2) 5 + 1
  if mp < 10 then (y, mp + 3, d) else (y + 1, mp - 9, d)

/-- 1970-epoch day index of a civil date (inverse of `civilFromDays`). -/
def daysFromCivil (y m d : ℤ) : ℤ :=
  let y' := if m ≤ 2 then y - 1 else y
  let era := Int.fdiv y' 400
  let yoe := y' - era * 400
  let mp := if m ≤ 2 then m + 9 else m - 3
  let doy := Int.fdiv (153 * mp + 2) 5 + d - 1
  let doe := yoe * 365 + Int.fdiv yoe 4 - Int.fdiv yoe 100 + doy
  era * 146097 + doe - 719468

/-- Gregorian leap year. -/
def isLeapYear (y : ℤ) : Bool :=
  (Int.emod y 4 == 0 && !(Int.emod y 100 == 0)) || Int.emod y 400 == 0

/-- Days in a month. -/
def daysInMonth (y m : ℤ) : ℤ :=
  if m == 2 then (if isLeapYear y then 29 else 28)
  else if m == 4 || m == 6 || m == 9 || m == 11 then 30
  else 31

/-- Day of week of a day index, Sunday = 0 (1970-01-01 was a Thursday). -/
def dayOfWeek (z : ℤ) : ℤ :=
  Int.emod (z + 4) 7

/-- Day of month of the last Sunday of the given month. -/
def lastSundayOfMonth (y m : ℤ) : ℤ :=
  let last := daysInMonth y m
  last - dayOfWeek (daysFromCivil y m last)

/-- Whether a Europe/Paris wall reading falls in daylight-saving time
under the IANA rule in force since 1996 (EU rule): DST runs from the last
Sunday of March, 03:00 wall (02:00→03:00 spring gap, fold=0 resolves the
gap to the pre-transition offset) to the last Sunday of October, 03:00
wall (03:00→02:00 fall repeat, fold=0 resolves the overlap to the earlier,
summer offset). -/
def parisDST (z u : ℤ) : Bool :=
  let c := civilFromDays z
  let y := c.1
  let m := c.2.1
  let d := c.2.2
  if m < 3 || 10 < m then false
  else if 3 < m && m < 10 then true
  else if m == 3 then
    let ls := lastSundayOfMonth y 3
    decide (ls < d) || (d == ls && decide (10800000000 ≤ u))
  else
    let ls := lastSundayOfMonth y 10
    decide (d < ls) || (d == ls && decide (u < 10800000000))

/-- UTC offset in seconds of a Europe/Paris wall reading
(`ZoneInfo("Europe/Paris").utcoffset`, fold=0): CEST = +7200 in DST,
CET = +3600 otherwise. -/
def parisOffset (z u : ℤ) : ℤ :=
  if parisDST z u then 7200 else 3600

/-- The UTC instant (µs since the epoch) of a Europe/Paris wall
reading — what aware-datetime comparison and subtraction operate on. -/
def utcUsec (z u : ℤ) : ℤ :=
  z * usecPerDay + u - parisOffset z u * 1000000

/-- The `next_run` datetime computed by
`model_state.seconds_until_next_4am` (lines 33–42): today's wall 04:00,
bumped to tomorrow's wall 04:00 when `now >= next_run` (aware
comparison). -/
def next4am (z u : ℤ) : ℤ × ℤ :=
  if utcUsec z usec4am ≤ utcUsec z u then (z + 1, usec4am) else (z, usec4am)

/-- Embedding of `model_state.seconds_until_next_4am()` in microseconds:
`(next_run - now).total_seconds()` of the aware datetimes, for a current
wall reading (z, u). -/
def secondsUntilNext4amUsec (z u : ℤ) : ℤ :=
  utcUsec (next4am z u).1 (next4am z u).2 - utcUsec z u

/-! ## Concrete instances used by witnesses and counterexamples -/

/-- Empty artifact bundle. -/
def artifacts0 : Artifacts := ⟨⟨[], []⟩, [], []⟩

/-- Version 1, tagged `stage=production`. -/
def mv1 : ModelVersion := ⟨1, "r1", "None", [("stage", "production")], artifacts0⟩

/-- Version 2, untagged. -/
def mv2 : ModelVersion := ⟨2, "r2", "None", [], artifacts0⟩

/-- Version 3, untagged. -/
def mv3 : ModelVersion := ⟨3, "r3", "None", [], artifacts0⟩

/-- Version 4, untagged. -/
def mv4 : ModelVersion := ⟨4, "r4", "None", [], artifacts0⟩

/-- A registry whose production version was produced by run "r1". -/
def regProd1 : Registry := ⟨[mv1], []⟩

/-- Registry `regProd1` with production metrics precision 0.30, recall 0.20
recorded for run "r1". -/
def regProdMetrics : Registry := ⟨[mv1], [("r1", (some (3/10), some (2/10)))]⟩

/-- The cache at process start: every slot `None`. -/
def cacheEmpty : Cache := ⟨none, none, none, none, none⟩

/-- A cache already holding the model of run "r1" — the very version
`regProd1` currently tags as production. -/
def cacheR1 : Cache := ⟨some artifacts0, some ⟨[], []⟩, some [], some [], some "r1"⟩

/-- Dataset map for the re-ranker counterexample: one user, items 10 and
30 mapped (20 deliberately unmapped). -/
def dmC6 : DatasetMap := ⟨[(0, 0)], [(10, 0), (30, 1)]⟩

/-- Serving cache for the re-ranker counterexample: item 10 scores 1,
item 30 scores 2 for user 0. -/
def cacheC6 : Cache :=
  ⟨some ⟨dmC6, [[1], [2]], [[1]]⟩, some dmC6, some [[1], [2]], some [[1]], some "r"⟩

/-- A feedback row with no rating and a non-"watched" status: the
claimed filter rejects it. -/
def fbWatchlist : Feedback := ⟨1, 5, none, some "watchlist"⟩

/-- A feedback row with a parseable rating 2. -/
def fbRated : Feedback := ⟨1, 5, some (RatingVal.num 2), none⟩


/-! ## Helper lemmas -/

/-- A row has a resolved rating exactly when it passes the claimed
rating/status filter. -/
theorem iuRowRating_isSome_eq (f : Feedback) :
    (iuRowRating f).isSome = claimRowPasses f := by
  rcases f with ⟨u, m, r, s⟩
  rcases r with _ | rv
  · simp only [iuRowRating, claimRowPasses]
    cases statusWatched s <;> simp
  · cases rv <;> simp [iuRowRating, claimRowPasses]

/-- On passing rows the resolved rating is the claimed effective
rating. -/
theorem iuRowRating_getD (f : Feedback) (h : claimRowPasses f = true) :
    (iuRowRating f).getD 0 = claimRowRating f := by
  rcases f with ⟨u, m, r, s⟩
  rcases r with _ | rv
  · simp only [claimRowPasses, Option.isNone_none, Bool.true_and, Bool.false_or] at h
    simp [iuRowRating, claimRowRating, h]
  · cases rv with
    | num q => simp [iuRowRating, claimRowRating]
    | unparseable => simp [claimRowPasses] at h

/-- When every row resolves to no rating the builder loop leaves its
accumulator untouched. -/
theorem iu_foldl_skip (um im : List (ℤ × ℕ)) (α : ℚ) (fbs : List Feedback)
    (h : ∀ f ∈ fbs, iuRowRating f = none) (acc : List ℕ × List ℕ × List ℚ) :
    fbs.foldl (iuStep um im α) acc = acc := by
  induction fbs generalizing acc with
  | nil => rfl
  | cons f t ih =>
    have hf : iuRowRating f = none := h f (by simp)
    have ht : ∀ g ∈ t, iuRowRating g = none := fun g hg => h g (by simp [hg])
    have hstep : iuStep um im α acc f = acc := by
      unfold iuStep
      rcases h1 : alookup um f.user_id with _ | u <;>
        rcases h2 : alookup im f.movie_id with _ | i <;> simp [hf]
    rw [List.foldl_cons, hstep, ih ht]

/-- Lemma: `evaluateIT` takes its early `return` when no user is eligible. -/
theorem evaluateIT_none_of_empty (choice : List ℕ → List ℕ)
    (itf uf : List (List ℚ)) (m : Coo)
    (h : eligibleUsersIT m itf.length = []) :
    evaluateIT choice itf uf m = none := by
  simp [evaluateIT, h]

/-- The eligible-user list of the counterexample matrix (one user with a
single interaction) is empty. -/
theorem eligible_empty_single :
    eligibleUsersIT ⟨[0], [0], [11], (1, 1)⟩ 1 = [] := by
  norm_num [eligibleUsersIT, userPosIT, cooAt, Coo.entries,
    show List.range 1 = [0] from rfl, List.filter]

/-! ## Claim theorems -/

/-- C2: with no production-tagged version any newly evaluated version is
promoted unconditionally; with a production version whose metrics are
recorded, promotion happens iff the new precision@10 strictly exceeds and
the new recall@10 at least matches production's. -/
theorem promotion_decision_iff :
    (∀ (reg : Registry) (p r : ℚ), prodTagged reg = [] →
      trainPromotes reg p r = true) ∧
    (∀ (reg : Registry) (v : ModelVersion) (pOld rOld p r : ℚ),
      get_current_production_metrics reg = (some v, some pOld, some rOld) →
      (trainPromotes reg p r = true ↔ pOld < p ∧ rOld ≤ r)) := by
  constructor
  · intro reg p r h
    simp [trainPromotes, get_current_production_metrics, h, is_better]
  · intro reg v pOld rOld p r h
    simp [trainPromotes, h, is_better]

/-- Witness for C2: an empty registry promotes (0.30, 0.20)
unconditionally; against production metrics (0.30, 0.20) the candidate
(0.32, 0.20) promotes and (0.32, 0.15) does not promote. -/
theorem promotion_decision_iff_witness :
    trainPromotes ⟨[], []⟩ (3/10) (2/10) = true ∧
    trainPromotes regProdMetrics (32/100) (2/10) = true ∧
    trainPromotes regProdMetrics (32/100) (15/100) = false := by
  have hpm : get_current_production_metrics regProdMetrics =
      (some mv1, some (3/10), some (2/10)) := by
    simp [get_current_production_metrics, prodTagged, regProdMetrics, mv1, alookup]
  refine ⟨promotion_decision_iff.1 ⟨[], []⟩ (3/10) (2/10) rfl, ?_, ?_⟩
  · rw [promotion_decision_iff.2 regProdMetrics mv1 (3/10) (2/10) (32/100) (2/10) hpm]
    norm_num
  · have h := promotion_decision_iff.2 regProdMetrics mv1 (3/10) (2/10)
      (32/100) (15/100) hpm
    have hm : ¬((3 : ℚ)/10 < 32/100 ∧ (2 : ℚ)/10 ≤ 15/100) := by norm_num
    cases hb : trainPromotes regProdMetrics (32/100) (15/100)
    · rfl
    · exact absurd (h.mp hb) hm

/-- C4 counterexample: a one-row feedback list whose single row fails the
rating/status filter trains without any error — `trainPrep` returns an
ok dataset map and an interaction matrix with zero stored entries, on
which `model.fit` then runs; no `EmptyDatasetError` (no such class
exists in the repository) is raised. -/
theorem empty_after_filter_trains_ok :
    claimRowPasses fbWatchlist = false ∧
    trainPrep [fbWatchlist] =
      Except.ok (⟨[(1, 0)], [(5, 0)]⟩, ⟨[], [], [], (1, 1)⟩) :=
  ⟨by decide, by rfl⟩

/-- C4 amended: the training pipeline raises (a RuntimeError) exactly
when the feedback list itself is empty; when a nonempty list has zero
rows passing the rating/status filter, it succeeds with an interaction
matrix holding no stored entries, and training proceeds on that empty
matrix. -/
theorem trainPrep_error_iff_empty :
    (∀ fbs : List Feedback, exceptOk (trainPrep fbs) = true ↔ fbs ≠ []) ∧
    (∀ fbs : List Feedback, (∀ f ∈ fbs, claimRowPasses f = false) →
      ∀ dm mat, trainPrep fbs = Except.ok (dm, mat) → mat.vals = []) := by
  constructor
  · intro fbs
    cases fbs with
    | nil => simp [trainPrep, build_maps_and_feedbacks, exceptOk, Except.map]
    | cons f t => simp [trainPrep, build_maps_and_feedbacks, exceptOk, Except.map]
  · intro fbs hall dm mat hok
    have hnone : ∀ f ∈ fbs, iuRowRating f = none := by
      intro f hf
      have h1 := iuRowRating_isSome_eq f
      rw [hall f hf] at h1
      exact Option.not_isSome_iff_eq_none.mp (by simp [h1])
    cases fbs with
    | nil => simp [trainPrep, build_maps_and_feedbacks, Except.map] at hok
    | cons f t =>
      simp only [trainPrep, build_maps_and_feedbacks, List.isEmpty_cons,
        Bool.false_eq_true, if_false, Except.map, Except.ok.injEq,
        Prod.mk.injEq] at hok
      rw [← hok.2]
      simp only [build_interaction_matrix_iu,
        iu_foldl_skip _ _ _ _ hnone ([], [], [])]

/-- Witness for C4 amended, at the empty list and at a one-row list
whose row fails the filter. -/
theorem trainPrep_error_iff_empty_witness :
    (exceptOk (trainPrep ([] : List Feedback)) = true ↔
      ([] : List Feedback) ≠ []) ∧
    (trainPrep [fbWatchlist] =
      Except.ok (⟨[(1, 0)], [(5, 0)]⟩, ⟨[], [], [], (1, 1)⟩) →
      (⟨[], [], [], (1, 1)⟩ : Coo).vals = []) :=
  ⟨trainPrep_error_iff_empty.1 [],
    fun h => trainPrep_error_iff_empty.2 [fbWatchlist] (by decide)
      ⟨[(1, 0)], [(5, 0)]⟩ ⟨[], [], [], (1, 1)⟩ h⟩

/-- C5 counterexample: on a matrix whose only user has a single
interaction there is no eligible user, and
`ml/pipelines/implicit_train.evaluate` logs nothing and returns Python
`None` — not the pair (0.0, 0.0) the claim states. -/
theorem evaluate_no_eligible_returns_none :
    evaluateIT (fun l => l) [[1]] [[1]] ⟨[0], [0], [11], (1, 1)⟩ = none ∧
    (none : Option (ℚ × ℚ)) ≠ some (0, 0) :=
  ⟨evaluateIT_none_of_empty (fun l => l) [[1]] [[1]] _ eligible_empty_single,
    by simp⟩

/-- C5 amended: in `implicit_train.evaluate` a user with fewer than 2
valid interactions never enters the eligible list (so never counts toward
the sample, which is drawn from that list), and with no eligible user the
function returns `None` without logging metrics; in
`training_helper.evaluate_model` the eligibility cut is instead 5
interactions, applied after sampling, and it returns (0.0, 0.0) when no
sampled user is eligible. -/
theorem evaluators_eligibility :
    (∀ (m : Coo) (vi u : ℕ), (userPosIT m vi u).length < 2 →
      u ∉ eligibleUsersIT m vi) ∧
    (∀ (choice : List ℕ → List ℕ) (itf uf : List (List ℚ)) (m : Coo),
      eligibleUsersIT m itf.length = [] → evaluateIT choice itf uf m = none) ∧
    (∀ (choice : List ℕ → List ℕ) (sample : ℕ → List ℕ → List ℕ)
      (itf uf : List (List ℚ)) (m : Coo) (su : ℕ),
      (∀ u, u < m.shape.1 → (userItemsTH m itf.length u).length < 5) →
      evaluate_model choice sample itf uf m su = (0, 0)) := by
  refine ⟨?_, fun choice itf uf m h => evaluateIT_none_of_empty choice itf uf m h, ?_⟩
  · intro m vi u hlen hmem
    rw [eligibleUsersIT, List.mem_filter] at hmem
    have := hmem.2
    simp only [decide_eq_true_eq] at this
    omega
  · intro choice sample itf uf m su h
    have hprs : ∀ users : List ℕ, (∀ u ∈ users, u < m.shape.1) →
        users.filterMap (fun u =>
          let items := userItemsTH m itf.length u
          if items.length < 5 then none
          else
            let nTest := max 1 (items.length / 5)
            let testItems := ((sample nTest items).filter
              (fun i => items.contains i)).dedup
            let trainItems := items.filter (fun i => !(testItems.contains i))
            let uvec := uf.getD u []
            let topk := (argsortDescWB (maskedScores itf uvec trainItems)).take 100
            some (topk, testItems)) = [] := by
      intro users husers
      rw [List.filterMap_eq_nil_iff]
      intro u hu
      simp only [if_pos (h u (husers u hu))]
    simp only [evaluate_model]
    split
    · rw [hprs _ (fun u hu => by
        have := List.of_mem_filter hu
        simpa using this)]
      simp
    · rw [hprs _ (fun u hu => List.mem_range.mp hu)]
      simp

/-- Witness for C5 amended: on the one-interaction matrix, user 0 (a
single interaction) is not eligible, `evaluate` returns `None`, and
`evaluate_model` returns (0, 0). -/
theorem evaluators_eligibility_witness :
    0 ∉ eligibleUsersIT ⟨[0], [0], [11], (1, 1)⟩ 1 ∧
    evaluateIT (fun l => l.drop 0) [[1]] [[1]] ⟨[0], [0], [11], (1, 1)⟩ = none ∧
    evaluate_model (fun l => l) (fun n l => l.take n) [[1]] [[1]]
      ⟨[0], [0], [11], (1, 1)⟩ 2000 = (0, 0) := by
  refine ⟨?_, ?_, ?_⟩
  · exact evaluators_eligibility.1 _ 1 0 (by
      norm_num [userPosIT, cooAt, Coo.entries,
        show List.range 1 = [0] from rfl, List.filter])
  · exact evaluators_eligibility.2.1 _ [[1]] [[1]] _ eligible_empty_single
  · exact evaluators_eligibility.2.2 (fun l => l) (fun n l => l.take n)
      [[1]] [[1]] ⟨[0], [0], [11], (1, 1)⟩ 2000 (by
        intro u hu
        interval_cases u
        norm_num [userItemsTH, cooAt, Coo.entries,
          show List.range 1 = [0] from rfl, List.filter])

/-- C6 evaluated at the failing input: user 0 is mapped, candidates
[10, 20, 30] with 20 absent from the item map, item 30 scoring 2 and
item 10 scoring 1.  The code returns [20, 10, 30]: the unscoreable
candidate 20 comes first and the best-scoring candidate 30 last, instead
of the scoreable-descending-then-unscoreable order [30, 10, 20] — because
the `np.argsort` indices of the scoreable-only score vector are applied
to `mapped`, which holds the full candidate list. -/
theorem rerank_interleaves_unmapped :
    rerank_with_implicit cacheC6 0 [10, 20, 30] = some [20, 10, 30] ∧
    ([20, 10, 30] : List ℤ) ≠ [30, 10, 20] := by
  constructor
  · norm_num [rerank_with_implicit, cacheC6, dmC6, alookup, buildIndicesMapped,
      mapOpt, argsortDesc, dotQ, List.insertionSort, List.orderedInsert,
      List.filter, List.filterMap]
  · decide

/-- C7 counterexample: with no production-tagged version, `load_model`
raises a generic ValueError (the 4-value return of
`load_latest_production_model` fails to unpack into 5 names) — not a
dedicated `NoProductionModelError`, a class the repository never
defines. -/
theorem load_error_not_dedicated :
    load_model ⟨[], []⟩ cacheEmpty =
      (cacheEmpty,
        some (PyErr.valueError "not enough values to unpack (expected 5, got 4)")) ∧
    some (PyErr.valueError "not enough values to unpack (expected 5, got 4)") ≠
      some PyErr.noProductionModelError := by
  exact ⟨rfl, by decide⟩

/-- C7 amended: whenever no version is tagged production, `load_model`
raises (a ValueError from tuple unpacking, not a `NoProductionModelError`)
and the cache is left exactly as it was — never half-populated, so
content-only serving continues on the previous cache contents. -/
theorem no_production_load_raises (reg : Registry) (c : Cache)
    (h : prodTagged reg = []) :
    load_model reg c =
      (c, some (PyErr.valueError "not enough values to unpack (expected 5, got 4)")) := by
  simp [load_model, load_latest_production_model, h]

/-- Witness for C7 amended at the empty registry and empty cache. -/
theorem no_production_load_raises_witness :
    load_model ⟨[], []⟩ cacheEmpty =
      (cacheEmpty,
        some (PyErr.valueError "not enough values to unpack (expected 5, got 4)")) :=
  no_production_load_raises ⟨[], []⟩ cacheEmpty rfl

/-- C8 evaluated at the failing input: the registry's production version
is run "r1" and the cache already holds version "r1" (no new production
version).  The scheduled tick performs zero cache swaps and leaves the
cache unchanged — but not via the no-op comparison the claim describes:
the 5-tuple returned by `load_latest_production_model` fails to unpack
into the 4 names of `model_watcher_thread`, raising a ValueError before
the version comparison is ever reached (and with no production version at
all the tick dies on an AttributeError instead), so the watcher thread
crashes on its first tick in every configuration. -/
theorem watcher_tick_crashes_before_compare :
    load_latest_production_model regProd1 = Sum.inr (artifacts0, "r1") ∧
    cacheR1.model_version = some "r1" ∧
    model_watcher_tick regProd1 cacheR1 =
      (cacheR1, 0, some (PyErr.valueError "too many values to unpack (expected 4)")) := by
  refine ⟨rfl, rfl, rfl⟩

/-- The deletion loop filters the registry by all the dropped version
numbers. -/
theorem delete_foldl (L vs : List ModelVersion) :
    L.foldl (fun acc v => acc.filter (fun w => !(w.version == v.version))) vs =
      vs.filter (fun w => L.all (fun v => !(w.version == v.version))) := by
  induction L generalizing vs with
  | nil => simp
  | cons v t ih =>
    rw [List.foldl_cons, ih, List.filter_filter]
    apply List.filter_congr
    intro w _
    simp only [List.all_cons]
    rw [Bool.and_comm]

/-- The archiving loop maps a stage update over the registry, touching
exactly the versions whose number occurs in the dropped list. -/
theorem archive_foldl (L vs : List ModelVersion) :
    L.foldl (fun acc v => transition_stage acc v.version "Archived") vs =
      vs.map (fun w => if L.any (fun v => w.version == v.version)
        then { w with stage := "Archived" } else w) := by
  induction L generalizing vs with
  | nil => simp
  | cons v t ih =>
    rw [List.foldl_cons, ih, transition_stage, List.map_map]
    apply List.map_congr_left
    intro w _
    rcases w with ⟨wv, wr, ws, wt, wa⟩
    simp only [Function.comp_apply, List.any_cons]
    by_cases hv : wv = v.version
    · simp [beq_iff_eq, hv]
    · simp [beq_iff_eq, hv]

/-- C9 counterexample: four versions with version 1 tagged
`stage=production` and `keep_last = 3`.  `archive_old_versions`
transitions the production-tagged version 1 to stage "Archived", and
`delete_model_versions` removes it outright — the claimed production
exemption does not exist in either loop. -/
theorem registry_prune_touches_production :
    alookup mv1.tags "stage" = some "production" ∧
    archive_old_versions [mv1, mv2, mv3, mv4] 3 =
      [{ mv1 with stage := "Archived" }, mv2, mv3, mv4] ∧
    delete_model_versions [mv1, mv2, mv3, mv4] 3 = [mv2, mv3, mv4] := by
  refine ⟨rfl, rfl, rfl⟩

/-- C9 amended: sorted by descending version number, the `keep_last`
most recent versions are retained untouched; `archive_old_versions` sets
stage "Archived" on exactly all the others and `delete_model_versions`
removes exactly all the others — with no exemption for the
production-tagged version, which is transitioned or deleted like any
other when it is not among the `keep_last` most recent. -/
theorem registry_prune_characterization (vs : List ModelVersion) (k : ℕ)
    (hdist : vs.Pairwise (fun a b => a.version ≠ b.version)) :
    delete_model_versions vs k =
      vs.filter (fun w => ((sortVersionsDesc vs).take k).any
        (fun v => w.version == v.version)) ∧
    archive_old_versions vs k =
      vs.map (fun w => if ((sortVersionsDesc vs).drop k).any
        (fun v => w.version == v.version)
        then { w with stage := "Archived" } else w) := by
  have hperm : List.Perm (sortVersionsDesc vs) vs := by
    rw [sortVersionsDesc]
    exact List.perm_insertionSort (fun a b => b.version ≤ a.version) vs
  have hpairS : (sortVersionsDesc vs).Pairwise (fun a b => a.version ≠ b.version) :=
    (List.Perm.pairwise_iff (fun h e => h e.symm) hperm).mpr hdist
  have hsplit := List.take_append_drop k (sortVersionsDesc vs)
  have hcross : ∀ a ∈ (sortVersionsDesc vs).take k,
      ∀ b ∈ (sortVersionsDesc vs).drop k, a.version ≠ b.version := by
    rw [← hsplit] at hpairS
    exact (List.pairwise_append.mp hpairS).2.2
  constructor
  · rw [delete_model_versions, delete_foldl]
    apply List.filter_congr
    intro w hw
    have hwS : w ∈ sortVersionsDesc vs := hperm.mem_iff.mpr hw
    rw [← hsplit, List.mem_append] at hwS
    rcases hwS with htk | hdr
    · have h1 : ((sortVersionsDesc vs).take k).any
          (fun v => w.version == v.version) = true :=
        List.any_eq_true.mpr ⟨w, htk, by simp⟩
      have h2 : ((sortVersionsDesc vs).drop k).all
          (fun v => !(w.version == v.version)) = true := by
        rw [List.all_eq_true]
        intro v hv
        simp only [Bool.not_eq_true']
        exact beq_eq_false_iff_ne.mpr (hcross w htk v hv)
      rw [h1, h2]
    · have h1 : ((sortVersionsDesc vs).drop k).all
          (fun v => !(w.version == v.version)) = false := by
        rw [List.all_eq_false]
        exact ⟨w, hdr, by simp⟩
      have h2 : ((sortVersionsDesc vs).take k).any
          (fun v => w.version == v.version) = false := by
        rw [List.any_eq_false]
        intro v hv
        exact fun hb => hcross v hv w hdr ((eq_of_beq hb).symm)
      rw [h1, h2]
  · rw [archive_old_versions, archive_foldl]

/-- Witness for C9 amended at the four-version registry with
`keep_last = 3`. -/
theorem registry_prune_characterization_witness :
    delete_model_versions [mv1, mv2, mv3, mv4] 3 =
      [mv1, mv2, mv3, mv4].filter (fun w =>
        ((sortVersionsDesc [mv1, mv2, mv3, mv4]).take 3).any
          (fun v => w.version == v.version)) ∧
    archive_old_versions [mv1, mv2, mv3, mv4] 3 =
      [mv1, mv2, mv3, mv4].map (fun w =>
        if ((sortVersionsDesc [mv1, mv2, mv3, mv4]).drop 3).any
          (fun v => w.version == v.version)
          then { w with stage := "Archived" } else w) :=
  registry_prune_characterization [mv1, mv2, mv3, mv4] 3 (by decide)

/-- Zipping three equal-length mapped lists is mapping the triple. -/
theorem zip_map3 {α : Type} (f : α → ℕ) (g : α → ℕ) (h : α → ℚ) (l : List α) :
    (l.map f).zip ((l.map g).zip (l.map h)) = l.map (fun x => (f x, g x, h x)) := by
  induction l with
  | nil => rfl
  | cons a t ih => simp [ih]

/-- Characterization of the `implicit_utils` builder loop: it appends one
triple per row that is mapped on both sides and resolves a rating. -/
theorem iu_foldl_char (um im : List (ℤ × ℕ)) (α : ℚ) (fbs : List Feedback)
    (acc : List ℕ × List ℕ × List ℚ) :
    fbs.foldl (iuStep um im α) acc =
      (acc.1 ++ (fbs.filter (fun f => (alookup um f.user_id).isSome &&
          ((alookup im f.movie_id).isSome && (iuRowRating f).isSome))).map
          (fun f => (alookup im f.movie_id).getD 0),
       acc.2.1 ++ (fbs.filter (fun f => (alookup um f.user_id).isSome &&
          ((alookup im f.movie_id).isSome && (iuRowRating f).isSome))).map
          (fun f => (alookup um f.user_id).getD 0),
       acc.2.2 ++ (fbs.filter (fun f => (alookup um f.user_id).isSome &&
          ((alookup im f.movie_id).isSome && (iuRowRating f).isSome))).map
          (fun f => 1 + α * (iuRowRating f).getD 0)) := by
  induction fbs generalizing acc with
  | nil => simp
  | cons f t ih =>
    rw [List.foldl_cons, ih]
    rcases h1 : alookup um f.user_id with _ | u
    · simp [iuStep, h1]
    · rcases h2 : alookup im f.movie_id with _ | i
      · simp [iuStep, h1, h2]
      · rcases h3 : iuRowRating f with _ | r
        · simp [iuStep, h1, h2, h3]
        · simp [iuStep, h1, h2, h3]

/-- Characterization of the `training_helper` builder loop under full map
coverage and parseable ratings: every row is kept. -/
theorem th_fold_char (um im : List (ℤ × ℕ)) (α : ℚ) :
    ∀ (fbs : List Feedback) (acc : List ℕ × List ℕ × List ℚ),
    (∀ f ∈ fbs, (alookup um f.user_id).isSome ∧ (alookup im f.movie_id).isSome) →
    (∀ f ∈ fbs, (thRowRating f).isSome) →
    thFold um im α acc fbs =
      some (acc.1 ++ fbs.map (fun f => (alookup um f.user_id).getD 0),
            acc.2.1 ++ fbs.map (fun f => (alookup im f.movie_id).getD 0),
            acc.2.2 ++ fbs.map (fun f => 1 + α * (thRowRating f).getD 0)) := by
  intro fbs
  induction fbs with
  | nil => intro acc _ _; simp [thFold]
  | cons f t ih =>
    intro acc hcov hpar
    obtain ⟨h1s, h2s⟩ := hcov f (by simp)
    obtain ⟨u, h1⟩ := Option.isSome_iff_exists.mp h1s
    obtain ⟨i, h2⟩ := Option.isSome_iff_exists.mp h2s
    obtain ⟨r, h3⟩ := Option.isSome_iff_exists.mp (hpar f (by simp))
    simp only [thFold, h1, h2, h3]
    rw [ih (acc.1 ++ [u], acc.2.1 ++ [i], acc.2.2 ++ [1 + α * r])
      (fun g hg => hcov g (List.mem_cons_of_mem f hg))
      (fun g hg => hpar g (List.mem_cons_of_mem f hg))]
    simp [h1, h2, h3]

/-- C3 counterexample: a row with no rating and status "watchlist" fails
the claimed rating/status filter, yet the `training_helper` builder keeps
it — producing a stored nonzero 1 + 10·1 = 11, and at (user-index,
item-index) orientation rather than the claimed (item-index,
user-index) — so the nonzero count (1) differs from the number of
passing rows (0). -/
theorem builder_keeps_filtered_row :
    claimRowPasses fbWatchlist = false ∧
    build_interaction_matrix_th [fbWatchlist] [(1, 0)] [(5, 0)] 10 =
      some ⟨[0], [0], [11], (1, 1)⟩ := by
  constructor
  · decide
  · norm_num [build_interaction_matrix_th, thFold, thRowRating, alookup,
      fbWatchlist]

/-- C3 amended: the `ml/utils/implicit_utils` builder behaves exactly as
claimed — under map coverage its stored entries are one per row passing
the claimed filter, each (item-index, user-index, 1 + alpha·rating), so
the stored-entry count equals the passing-row count and the shape is
(items, users).  The `training_helper` builder instead keeps every mapped
row regardless of the filter (rating defaulting to 1.0 whenever the
rating is absent or zero), stores entries as (user-index, item-index,
1 + alpha·rating) with shape (users, items), and raises on unparseable
ratings. -/
theorem interaction_matrix_characterization :
    (∀ (fbs : List Feedback) (um im : List (ℤ × ℕ)) (α : ℚ),
      (∀ f ∈ fbs, (alookup um f.user_id).isSome ∧ (alookup im f.movie_id).isSome) →
      (∃ f ∈ fbs, claimRowPasses f = true) →
      (build_interaction_matrix_iu fbs um im α).entries =
        (fbs.filter claimRowPasses).map (fun f =>
          ((alookup im f.movie_id).getD 0, (alookup um f.user_id).getD 0,
            1 + α * claimRowRating f)) ∧
      (build_interaction_matrix_iu fbs um im α).vals.length =
        (fbs.filter claimRowPasses).length ∧
      (build_interaction_matrix_iu fbs um im α).shape = (im.length, um.length)) ∧
    (∀ (fbs : List Feedback) (um im : List (ℤ × ℕ)) (α : ℚ),
      (∀ f ∈ fbs, (alookup um f.user_id).isSome ∧ (alookup im f.movie_id).isSome) →
      (∀ f ∈ fbs, (thRowRating f).isSome) →
      build_interaction_matrix_th fbs um im α = some
        ⟨fbs.map (fun f => (alookup um f.user_id).getD 0),
         fbs.map (fun f => (alookup im f.movie_id).getD 0),
         fbs.map (fun f => 1 + α * (thRowRating f).getD 0),
         (um.length, im.length)⟩) := by
  constructor
  · intro fbs um im α hcov _hex
    have hfeq : fbs.filter (fun f => (alookup um f.user_id).isSome &&
        ((alookup im f.movie_id).isSome && (iuRowRating f).isSome)) =
        fbs.filter claimRowPasses := by
      apply List.filter_congr
      intro f hf
      obtain ⟨h1, h2⟩ := hcov f hf
      rw [h1, h2, iuRowRating_isSome_eq]
      simp
    have hbuild := iu_foldl_char um im α fbs ([], [], [])
    have hvals : (build_interaction_matrix_iu fbs um im α).vals =
        (fbs.filter claimRowPasses).map (fun f => 1 + α * (iuRowRating f).getD 0) := by
      simp only [build_interaction_matrix_iu, hbuild, hfeq, List.nil_append]
    have hrows : (build_interaction_matrix_iu fbs um im α).rows =
        (fbs.filter claimRowPasses).map (fun f => (alookup im f.movie_id).getD 0) := by
      simp only [build_interaction_matrix_iu, hbuild, hfeq, List.nil_append]
    have hcols : (build_interaction_matrix_iu fbs um im α).cols =
        (fbs.filter claimRowPasses).map (fun f => (alookup um f.user_id).getD 0) := by
      simp only [build_interaction_matrix_iu, hbuild, hfeq, List.nil_append]
    refine ⟨?_, ?_, ?_⟩
    · rw [Coo.entries, hrows, hcols, hvals, zip_map3]
      apply List.map_congr_left
      intro f hf
      rw [iuRowRating_getD f (List.mem_filter.mp hf).2]
    · rw [hvals, List.length_map]
    · simp [build_interaction_matrix_iu, hbuild]
  · intro fbs um im α hcov hpar
    rw [build_interaction_matrix_th, th_fold_char um im α fbs ([], [], []) hcov hpar]
    simp

/-- Witness for C3 amended: a single row rated 2, user 1 → index 0,
movie 5 → index 0, alpha 10. -/
theorem interaction_matrix_characterization_witness :
    (build_interaction_matrix_iu [fbRated] [(1, 0)] [(5, 0)] 10).entries =
      ([fbRated].filter claimRowPasses).map (fun f =>
        ((alookup [(5, 0)] f.movie_id).getD 0, (alookup [(1, 0)] f.user_id).getD 0,
          1 + 10 * claimRowRating f)) ∧
    build_interaction_matrix_th [fbRated] [(1, 0)] [(5, 0)] 10 = some
      ⟨[fbRated].map (fun f => (alookup [(1, 0)] f.user_id).getD 0),
       [fbRated].map (fun f => (alookup [(5, 0)] f.movie_id).getD 0),
       [fbRated].map (fun f => 1 + 10 * (thRowRating f).getD 0),
       (1, 1)⟩ :=
  ⟨(interaction_matrix_characterization.1 [fbRated] [(1, 0)] [(5, 0)] 10
      (by decide) ⟨fbRated, by decide, by decide⟩).1,
    interaction_matrix_characterization.2 [fbRated] [(1, 0)] [(5, 0)] 10
      (by decide) (by decide)⟩

/-- The candidate-mapping loop under full item-map coverage: `indices`
is the mapped index of every candidate and `mapped` is the whole
candidate list. -/
theorem buildIndicesMapped_foldl (item_map : List (ℤ × ℕ)) :
    ∀ (cands : List ℤ) (acc : List ℕ × List ℤ),
    (∀ cid ∈ cands, (alookup item_map cid).isSome) →
    cands.foldl
      (fun acc cid =>
        match alookup item_map cid with
        | some idx => (acc.1 ++ [idx], acc.2 ++ [cid])
        | none => (acc.1, acc.2 ++ [cid]))
      acc =
      (acc.1 ++ cands.map (fun cid => (alookup item_map cid).getD 0),
        acc.2 ++ cands) := by
  intro cands
  induction cands with
  | nil => intro acc _; simp
  | cons cid t ih =>
    intro acc h
    obtain ⟨k, hk⟩ := Option.isSome_iff_exists.mp (h cid (by simp))
    rw [List.foldl_cons]
    simp only [hk]
    rw [ih _ (fun x hx => h x (List.mem_cons_of_mem cid hx))]
    simp [hk]

/-- Lemma: `buildIndicesMapped` under full coverage. -/
theorem buildIndicesMapped_allMapped (item_map : List (ℤ × ℕ))
    (cands : List ℤ) (h : ∀ cid ∈ cands, (alookup item_map cid).isSome) :
    buildIndicesMapped item_map cands =
      (cands.map (fun cid => (alookup item_map cid).getD 0), cands) := by
  rw [buildIndicesMapped, buildIndicesMapped_foldl item_map cands ([], []) h]
  simp

/-- Fancy indexing succeeds when every index is in range, returning one
row per index. -/
theorem mapOpt_isSome {α : Type} (l : List ℕ) (f : ℕ → Option α)
    (h : ∀ i ∈ l, (f i).isSome) :
    ∃ r, mapOpt l f = some r ∧ r.length = l.length := by
  induction l with
  | nil => exact ⟨[], rfl, rfl⟩
  | cons i t ih =>
    obtain ⟨a, ha⟩ := Option.isSome_iff_exists.mp (h i (by simp))
    obtain ⟨r, hr, hlen⟩ := ih (fun j hj => h j (by simp [hj]))
    exact ⟨a :: r, by simp [mapOpt, ha, hr], by simp [hlen]⟩

/-- Lemma: `argsortDesc` returns a permutation of the index range. -/
theorem argsortDesc_perm (scores : List ℚ) :
    List.Perm (argsortDesc scores) (List.range scores.length) := by
  rw [argsortDesc]
  exact List.perm_insertionSort _ _

/-- Looking every position of a list up in index order rebuilds the
list. -/
theorem filterMap_get?_range {α : Type} (l : List α) :
    (List.range l.length).filterMap (fun i => l.get? i) = l := by
  induction l with
  | nil => rfl
  | cons a t ih =>
    rw [List.length_cons, List.range_succ_eq_map, List.filterMap_cons,
      List.filterMap_map]
    simp only [List.get?_cons_zero]
    have : (fun i => (a :: t).get? i) ∘ Nat.succ = fun i => t.get? i := by
      funext i
      simp [List.get?_cons_succ]
    rw [this, ih]

/-- Looking the positions of a permutation of the index range up
permutes the list. -/
theorem filterMap_get?_perm {α : Type} (l : List α) (op : List ℕ)
    (h : List.Perm op (List.range l.length)) :
    List.Perm (op.filterMap (fun i => l.get? i)) l := by
  have hp := List.Perm.filterMap (fun i => l.get? i) h
  rwa [filterMap_get?_range] at hp

/-- C1: the re-ranker is the identity whenever no collaborative model or
dataset map is cached or the user has no row in the user-map; and when a
model is cached with the user mapped, the user's factor row present, and
every candidate present in the item-map with an in-range item-factor row,
the output is a permutation of the input candidate list. -/
theorem rerank_identity_and_permutation (c : Cache) (uid : ℤ) (cands : List ℤ) :
    (c.implicit_model = none → rerank_with_implicit c uid cands = some cands) ∧
    (c.dataset_map = none → rerank_with_implicit c uid cands = some cands) ∧
    (∀ m dm, c.implicit_model = some m → c.dataset_map = some dm →
      alookup dm.user_map uid = none →
      rerank_with_implicit c uid cands = some cands) ∧
    (∀ m dm uidx uf itf, c.implicit_model = some m → c.dataset_map = some dm →
      alookup dm.user_map uid = some uidx →
      c.user_factors = some uf → uidx < uf.length →
      c.item_factors = some itf →
      (∀ cid ∈ cands, ∃ k, alookup dm.item_map cid = some k ∧ k < itf.length) →
      ∃ out, rerank_with_implicit c uid cands = some out ∧
        List.Perm out cands) := by
  refine ⟨?_, ?_, ?_, ?_⟩
  · intro h
    simp [rerank_with_implicit, h]
  · intro h
    rcases hm : c.implicit_model with _ | m <;> simp [rerank_with_implicit, h, hm]
  · intro m dm h1 h2 h3
    simp [rerank_with_implicit, h1, h2, h3]
  · intro m dm uidx uf itf h1 h2 h3 h4 h5 h6 h7
    have hcov : ∀ cid ∈ cands, (alookup dm.item_map cid).isSome := by
      intro cid hcid
      obtain ⟨k, hk, _⟩ := h7 cid hcid
      simp [hk]
    have hbim := buildIndicesMapped_allMapped dm.item_map cands hcov
    have huvec : uf.get? uidx = some (uf.get ⟨uidx, h5⟩) := List.get?_eq_get h5
    rcases hc : cands with _ | ⟨c0, ct⟩
    · refine ⟨cands, ?_, by simp [hc]⟩
      subst hc
      simp only [rerank_with_implicit, h1, h2, h3, h4, huvec,
        buildIndicesMapped, List.foldl_nil, List.isEmpty_nil, if_true]
    · rw [← hc]
      have hne : cands ≠ [] := by simp [hc]
      -- every computed index is in range of the item factors
      have hidx : ∀ i ∈ cands.map (fun cid => (alookup dm.item_map cid).getD 0),
          (itf.get? i).isSome := by
        intro i hi
        obtain ⟨cid, hcid, hcideq⟩ := List.mem_map.mp hi
        obtain ⟨k, hk, hklt⟩ := h7 cid hcid
        have hik : i = k := by rw [← hcideq, hk]; rfl
        subst hik
        exact Option.isSome_iff_exists.mpr ⟨_, List.get?_eq_get hklt⟩
      obtain ⟨ivs, hivs, hlen⟩ := mapOpt_isSome _ (fun i => itf.get? i) hidx
      have hlen2 : ivs.length = cands.length := by
        rw [hlen, List.length_map]
      -- the argsort order is a permutation of the candidate index range
      have hscoreslen : (ivs.map (fun v => dotQ v (uf.get ⟨uidx, h5⟩))).length =
          cands.length := by
        rw [List.length_map, hlen2]
      have hperm : List.Perm
          (argsortDesc (ivs.map (fun v => dotQ v (uf.get ⟨uidx, h5⟩))))
          (List.range cands.length) := by
        have := argsortDesc_perm (ivs.map (fun v => dotQ v (uf.get ⟨uidx, h5⟩)))
        rwa [hscoreslen] at this
      have hordperm : List.Perm
          ((argsortDesc (ivs.map (fun v => dotQ v (uf.get ⟨uidx, h5⟩)))).filterMap
            (fun i => cands.get? i)) cands :=
        filterMap_get?_perm cands _ hperm
      have hunmapped : cands.filter
          (fun cid => !(((argsortDesc (ivs.map (fun v =>
            dotQ v (uf.get ⟨uidx, h5⟩)))).filterMap
              (fun i => cands.get? i)).contains cid)) = [] := by
        rw [List.filter_eq_nil_iff]
        intro cid hcid
        have : cid ∈ (argsortDesc (ivs.map (fun v =>
            dotQ v (uf.get ⟨uidx, h5⟩)))).filterMap (fun i => cands.get? i) :=
          hordperm.mem_iff.mpr hcid
        simpa using this
      have hine : (cands.map
          (fun cid => (alookup dm.item_map cid).getD 0)).isEmpty = false := by
        rw [List.isEmpty_eq_false_iff_exists_mem]
        obtain ⟨k, hk, _⟩ := h7 c0 (by simp [hc])
        exact ⟨k, List.mem_map.mpr ⟨c0, by simp [hc], by simp [hk]⟩⟩
      refine ⟨(argsortDesc (ivs.map (fun v => dotQ v (uf.get ⟨uidx, h5⟩)))).filterMap
          (fun i => cands.get? i), ?_, hordperm⟩
      simp only [rerank_with_implicit, h1, h2, h3, h4, h6, huvec, hbim, hine,
        Bool.false_eq_true, if_false, hivs, hunmapped, List.append_nil]

/-- Witness for C1: the empty cache is the identity on [3, 2]; the
cacheC6 model with fully mapped candidates [10, 30] returns a
permutation of them. -/
theorem rerank_identity_and_permutation_witness :
    rerank_with_implicit cacheEmpty 1 [3, 2] = some [3, 2] ∧
    (∃ out, rerank_with_implicit cacheC6 0 [10, 30] = some out ∧
      List.Perm out [10, 30]) := by
  constructor
  · exact (rerank_identity_and_permutation cacheEmpty 1 [3, 2]).1 rfl
  · refine (rerank_identity_and_permutation cacheC6 0 [10, 30]).2.2.2
      ⟨dmC6, [[1], [2]], [[1]]⟩ dmC6 0 [[1]] [[1], [2]] rfl rfl rfl rfl
      (by decide) rfl ?_
    intro cid hcid
    rcases List.mem_cons.mp hcid with h | h
    · exact ⟨0, by rw [h]; rfl, by decide⟩
    · rcases List.mem_cons.mp h with h' | h'
      · exact ⟨1, by rw [h']; rfl, by decide⟩
      · exact absurd h' (List.not_mem_nil cid)

/-- The Europe/Paris UTC offset is always CET (+3600 s) or CEST
(+7200 s). -/
theorem parisOffset_bounds (z u : ℤ) :
    3600 ≤ parisOffset z u ∧ parisOffset z u ≤ 7200 := by
  rw [parisOffset]
  split <;> omega

/-- C10 counterexample: at wall clock 2025-10-25 04:30:00 Europe/Paris
(CEST, the day before the fall-back transition), the computed delay is
24.5 hours — 88 200 seconds, strictly more than the claimed 86 400-second
(24-hour) maximum — because tomorrow's 04:00 is in CET while now is in
CEST. -/
theorem next4am_delay_exceeds_day :
    secondsUntilNext4amUsec (daysFromCivil 2025 10 25) 16200000000 =
      88200000000 ∧
    (86400 : ℤ) * 1000000 < 88200000000 := by
  constructor
  · decide
  · decide

/-- C10 amended: for every valid wall reading the delay is strictly
positive and at most 90 000 seconds (25 hours; it exceeds 86 400 only
around the DST fall-back transition), and adding the delay to the current
UTC instant lands exactly on the chosen 04:00:00 Europe/Paris wall
instant. -/
theorem seconds_until_next_4am_bounds (z u : ℤ)
    (h0 : 0 ≤ u) (h1 : u < usecPerDay) :
    0 < secondsUntilNext4amUsec z u ∧
    secondsUntilNext4amUsec z u ≤ 90000 * 1000000 ∧
    utcUsec (next4am z u).1 (next4am z u).2 =
      utcUsec z u + secondsUntilNext4amUsec z u ∧
    (next4am z u).2 = usec4am := by
  have hA := parisOffset_bounds z u
  have hB := parisOffset_bounds z usec4am
  have hC := parisOffset_bounds (z + 1) usec4am
  simp only [usec4am] at hB hC
  simp only [usecPerDay] at h1
  refine ⟨?_, ?_, by rw [secondsUntilNext4amUsec]; ring, ?_⟩
  · rw [secondsUntilNext4amUsec, next4am]
    by_cases hbr : utcUsec z usec4am ≤ utcUsec z u
    · rw [if_pos hbr]
      simp only [utcUsec, usecPerDay, usec4am] at hbr ⊢
      omega
    · rw [if_neg hbr]
      simp only [utcUsec, usecPerDay, usec4am] at hbr ⊢
      omega
  · rw [secondsUntilNext4amUsec, next4am]
    by_cases hbr : utcUsec z usec4am ≤ utcUsec z u
    · rw [if_pos hbr]
      simp only [utcUsec, usecPerDay, usec4am] at hbr ⊢
      omega
    · rw [if_neg hbr]
      simp only [utcUsec, usecPerDay, usec4am] at hbr ⊢
      omega
  · rw [next4am]
    split <;> rfl

/-- Witness for C10 amended at the epoch wall midnight. -/
theorem seconds_until_next_4am_bounds_witness :
    0 < secondsUntilNext4amUsec 0 0 ∧
    secondsUntilNext4amUsec 0 0 ≤ 90000 * 1000000 ∧
    utcUsec (next4am 0 0).1 (next4am 0 0).2 =
      utcUsec 0 0 + secondsUntilNext4amUsec 0 0 ∧
    (next4am 0 0).2 = usec4am :=
  seconds_until_next_4am_bounds 0 0 (by decide) (by decide)
